import Mathlib

/-!
Shallow embedding of the YouTube descriptions enhancer script (`main.py`)
and verification of its specification claims.

Python strings are modelled as sequences of code points: Lean `String`s at
the interface, `List Char` for the character-level operations (Lean's own
`String.splitOn`/`String.drop` use well-founded recursion, which the kernel
does not reduce, so the Python string operations are re-implemented
structurally on `List Char`).  External effects (HTTP requests, randomness)
are modelled by explicit oracles passed as arguments.
-/

namespace Enhancer

/-! ## Python string primitives -/

/-- Python `str.strip()`: drop whitespace from both ends. -/
def pyStrip (l : List Char) : List Char :=
  ((l.dropWhile Char.isWhitespace).reverse.dropWhile Char.isWhitespace).reverse

/-- Value of a digit list read in base 10. -/
def digitsVal (l : List Char) : Nat :=
  l.foldl (fun a c => a * 10 + (c.toNat - 48)) 0

/-- Whether `l` is a nonempty list of decimal digits. -/
def isDigits (l : List Char) : Bool :=
  !l.isEmpty && l.all Char.isDigit

/-- Python `int(s)`: optional surrounding whitespace, optional sign, then
decimal digits; `none` models a raised `ValueError`.  (Python's underscore
digit grouping is not modelled; no claim depends on it.) -/
def pyIntAux (l : List Char) : Option Int :=
  match pyStrip l with
  | '-' :: rest => if isDigits rest then some (-(digitsVal rest : Int)) else none
  | '+' :: rest => if isDigits rest then some (digitsVal rest : Int) else none
  | stripped => if isDigits stripped then some (digitsVal stripped : Int) else none

/-- Python `int(s)` on a string. -/
def pyInt (s : String) : Option Int := pyIntAux s.data

/-- Python `s.split(sep)` for a single-character separator. -/
def splitChar (sep : Char) : List Char → List (List Char)
  | [] => [[]]
  | c :: cs =>
    if c = sep then [] :: splitChar sep cs
    else
      match splitChar sep cs with
      | [] => [[c]]
      | t :: ts => (c :: t) :: ts

/-- Python `s.split(sep)` for a nonempty separator: non-overlapping matches,
scanned left to right.  `fuel` bounds the scan; it is instantiated with the
length of the string, which the scan never exceeds. -/
def pySplitGo (sep : List Char) : Nat → List Char → List (List Char)
  | _, [] => [[]]
  | 0, l => [l]
  | fuel + 1, c :: cs =>
    if sep.isPrefixOf (c :: cs) then
      [] :: pySplitGo sep fuel (List.drop sep.length (c :: cs))
    else
      match pySplitGo sep fuel cs with
      | [] => [[c]]
      | t :: ts => (c :: t) :: ts

/-- Python `s.split(sep)` for a nonempty separator. -/
def pySplit (sep s : List Char) : List (List Char) :=
  pySplitGo sep s.length s

/-- Python `sub in s` (substring containment) for a nonempty `sub`:
`s.split(sub)` has more than one part exactly when `sub` occurs in `s`. -/
def pyInStr (sub s : String) : Bool :=
  (pySplit sub.data s.data).length != 1

/-- Python `t.replace(".", "")`: remove every period. -/
def removeDots (t : List Char) : List Char :=
  t.filter (fun c => decide (c ≠ '.'))

/-- Python `", ".join(tags)` on character lists. -/
def joinCommaSpace : List (List Char) → List Char
  | [] => []
  | [t] => t
  | t :: t2 :: ts => t ++ ',' :: ' ' :: joinCommaSpace (t2 :: ts)

/-! ## Duration parser (`calculate_minutes`, main.py lines 142-151) -/

/-- The hour component parse `int(x[2:].split('H')[0])`;
`none` models the `except` branch being taken. -/
def hoursParse (x : String) : Option Int :=
  pyIntAux ((splitChar 'H' (x.data.drop 2)).headD [])

/-- The minute component parse `int(x[2:].split('H')[-1].split('M')[0])`. -/
def minutesParse (x : String) : Option Int :=
  pyIntAux ((splitChar 'M' ((splitChar 'H' (x.data.drop 2)).getLastD [])).headD [])

/-- `hours` after the try/except: a failed parse defaults to 0. -/
def hoursComp (x : String) : Int := (hoursParse x).getD 0

/-- `minutes` after the try/except: a failed parse defaults to 0. -/
def minutesComp (x : String) : Int := (minutesParse x).getD 0

/-- `calculate_minutes` (main.py lines 142-151): `hours*60 + minutes`. -/
def calculate_minutes (x : String) : Int :=
  hoursComp x * 60 + minutesComp x

/-! ## Paginated list fetcher (`get_video_list`, main.py lines 63-92) -/

/-- One response of the playlist listing endpoint: its item video ids and
whether the response carries a `nextPageToken`. -/
structure Page where
  items : List String
  hasNext : Bool
deriving DecidableEq

/-- The inner `for video in data` loop: append each id not yet collected. -/
def dedupAppend (acc : List String) (ids : List String) : List String :=
  ids.foldl (fun l v => if v ∈ l then l else l ++ [v]) acc

/-- The `while next_page` loop.  The platform is modelled as the list of
responses the successive requests would return; each iteration executes one
request (consuming one response), collects its ids, and continues exactly
when the response carries a continuation token.  Returns the collected ids
and the number of requests executed. -/
def get_video_list_go : List Page → List String → List String × Nat
  | [], acc => (acc, 0)
  | p :: rest, acc =>
    let acc2 := dedupAppend acc p.items
    if p.hasNext then
      let r := get_video_list_go rest acc2
      (r.1, r.2 + 1)
    else
      (acc2, 1)

/-- `get_video_list` (main.py lines 63-92): collected ids and request count. -/
def get_video_list (pages : List Page) : List String × Nat :=
  get_video_list_go pages []

/-- Modelled from the spec: "the concatenation of all pages' ids with
duplicates removed", keeping the first occurrence of each id in order.
Used to compare the code's incremental de-duplication against the spec's
description. -/
def dedupKeepFirst : List String → List String
  | [] => []
  | v :: vs => v :: (dedupKeepFirst vs).filter (fun w => decide (w ≠ v))

/-! ## Batch detail fetcher (`get_video_details`, main.py lines 98-106) -/

/-- The `for i in range(0, len(video_list), 50)` loop: the successive slices
`video_list[i:i+50]`, one per detail request.  `fuel` bounds the recursion
and is instantiated with the list length, which the loop never exceeds. -/
def chunkLoop : Nat → List String → List (List String)
  | 0, _ => []
  | _ + 1, [] => []
  | fuel + 1, c :: cs => ((c :: cs).take 50) :: chunkLoop fuel ((c :: cs).drop 50)

/-- The id lists of the detail requests `get_video_details` issues
(main.py lines 98-106). -/
def get_video_details_requests (l : List String) : List (List String) :=
  chunkLoop l.length l

/-- The chunk sizes determined by the input length alone (used to state the
concrete 120-id batching example). -/
def lenChunksLoop : Nat → Nat → List Nat
  | 0, _ => []
  | _ + 1, 0 => []
  | fuel + 1, n + 1 => min 50 (n + 1) :: lenChunksLoop fuel (n + 1 - 50)

/-! ## Tag sanitizer (`clean_and_fix_tags`, main.py lines 265-270) -/

/-- The list comprehension: split on commas, keep tags whose stripped form
has at most 30 characters, and map each kept tag to its stripped form with
periods removed. -/
def tagCandidates (s : List Char) : List (List Char) :=
  ((splitChar ',' s).filter (fun t => decide ((pyStrip t).length ≤ 30))).map
    (fun t => removeDots (pyStrip t))

/-- The `while len(", ".join(tags)) > 500` loop.  `pick` is the oracle for
`random.randint(0, len(tags) - 1)`; `fuel` bounds the iteration and is
instantiated with the initial number of tags, which the loop never exceeds
since every removal shortens the list. -/
def shrinkLoop (pick : List (List Char) → Nat) : Nat → List (List Char) → List (List Char)
  | 0, tags => tags
  | fuel + 1, tags =>
    if 500 < (joinCommaSpace tags).length then
      shrinkLoop pick fuel (tags.eraseIdx (pick tags))
    else tags

/-- The tag list held by `clean_and_fix_tags` after its while loop. -/
def cleanTagsList (pick : List (List Char) → Nat) (s : String) : List (List Char) :=
  shrinkLoop pick (tagCandidates s.data).length (tagCandidates s.data)

/-- `clean_and_fix_tags` (main.py lines 265-270): the final
`", ".join(tags)`. -/
def clean_and_fix_tags (pick : List (List Char) → Nat) (s : String) : String :=
  String.mk (joinCommaSpace (cleanTagsList pick s))

/-! ## Update orchestrator (`update_youtube_videos`, main.py lines 203-236)
and the main-phase filter (main.py line 281) -/

/-- The processed marker appended to updated descriptions (main.py line 20). -/
def IDENTIFIER : String := "\n#atualizado"

/-- One row of the enriched and generated table, restricted to the fields
`update_youtube_videos` and the main-phase filter read.  The `Option` on the
generated fields models the `isinstance(..., str)` checks: `none` stands for
a non-string value such as NaN. -/
structure Row where
  video_url : String
  description : String
  title : String
  new_description : Option String
  new_suggested_tags : Option String
deriving DecidableEq

/-- `row["video_url"].split("v=")[-1]`. -/
def rowVideoId (row : Row) : List Char :=
  (pySplit ['v', '='] row.video_url.data).getLastD []

/-- `row["new_description"] if isinstance(..., str) else ""`. -/
def rowNewDescription (row : Row) : String :=
  row.new_description.getD ""

/-- `row["new_suggested_tags"].split(", ") if isinstance(..., str) else []`. -/
def rowNewTags (row : Row) : List (List Char) :=
  match row.new_suggested_tags with
  | some s => pySplit [',', ' '] s.data
  | none => []

/-- The skip guard `IDENTIFIER in str(row["description"])` (main.py line 214). -/
def alreadyUpdated (row : Row) : Bool :=
  pyInStr IDENTIFIER row.description

/-- The size check
`len(new_description) > 5000 or len(", ".join(new_tags)) > 500`
(main.py line 217). -/
def sizeViolation (row : Row) : Bool :=
  decide (5000 < (rowNewDescription row).length) ||
    decide (500 < (joinCommaSpace (rowNewTags row)).length)

/-- The body of the update request (main.py lines 222-225). -/
structure UpdateRequest where
  id : List Char
  categoryId : String
  description : String
  tags : List (List Char)
  title : String
deriving DecidableEq

/-- The request `update_youtube_videos` builds for a row: note the fixed
`categoryId: "27"`. -/
def mkRequest (row : Row) : UpdateRequest :=
  ⟨rowVideoId row, "27", rowNewDescription row, rowNewTags row, row.title⟩

/-- Observable outcome of the update loop: the returned `failed_rows` table,
the update requests issued (in order), and the rows reported updated. -/
structure UpdateOutcome where
  failed : List Row
  requests : List UpdateRequest
  updated : List Row
deriving DecidableEq

/-- `update_youtube_videos` (main.py lines 203-236).  `execOk row` is the
oracle for whether `request.execute()` succeeds on that row's request. -/
def update_youtube_videos (execOk : Row → Bool) : List Row → UpdateOutcome
  | [] => ⟨[], [], []⟩
  | row :: rest =>
    let out := update_youtube_videos execOk rest
    if alreadyUpdated row then out
    else if sizeViolation row then ⟨row :: out.failed, out.requests, out.updated⟩
    else if execOk row then
      ⟨out.failed, mkRequest row :: out.requests, row :: out.updated⟩
    else
      ⟨row :: out.failed, mkRequest row :: out.requests, out.updated⟩

/-- The main-phase filter
`df = df[df["description"].str.contains(IDENTIFIER) == False]`
(main.py line 281); the marker contains no regex metacharacter, so the
pandas regex containment coincides with substring containment. -/
def filterAlreadyUpdated (df : List Row) : List Row :=
  df.filter (fun row => !alreadyUpdated row)

/-! ## Concrete inputs used by witnesses and counterexamples -/

/-- A 501-character tag string: its serialization exceeds the 500-character
limit. -/
def oversizedTagsString : String := String.mk (List.replicate 501 'a')

/-- A row that both bears the processed marker and violates the size limit. -/
def markedOversizedRow : Row :=
  ⟨"https://www.youtube.com/watch?v=abc", IDENTIFIER, "t", none,
    some oversizedTagsString⟩

/-- A marker-free row violating the size limit. -/
def oversizedRow : Row :=
  ⟨"https://www.youtube.com/watch?v=xyz", "desc", "t2", none,
    some oversizedTagsString⟩

/-- A small marker-free compliant row, parameterised by title. -/
def isoRow (t : String) : Row :=
  ⟨"https://x/watch?v=abc", "plain", t, some "nd", some "a, b"⟩

/-- A row bearing the processed marker. -/
def markedRow : Row :=
  ⟨"u", IDENTIFIER, "tm", none, none⟩

/-- A small marker-free compliant row. -/
def plainRow : Row :=
  ⟨"https://x/watch?v=zzz", "plain", "tt", some "nd", some "a, b"⟩

end Enhancer

namespace Enhancer

/-! ## C8 and C9: the duration parser -/

/-- C8: the Duration Parser computes hours×60 + minutes with seconds
discarded; `"PT1H30M"` yields 90, `"PT45M"` yields 45, `"PT2H"` yields 120,
the empty input yields 0, and any malformed or absent component
contributes 0. -/
theorem duration_parser_values :
    calculate_minutes "PT1H30M" = 90 ∧
    calculate_minutes "PT45M" = 45 ∧
    calculate_minutes "PT2H" = 120 ∧
    calculate_minutes "" = 0 ∧
    (∀ x : String, calculate_minutes x = hoursComp x * 60 + minutesComp x) ∧
    (∀ x : String, hoursParse x = none → hoursComp x = 0) ∧
    (∀ x : String, minutesParse x = none → minutesComp x = 0) ∧
    (∀ x : String, hoursParse x = none → minutesParse x = none →
      calculate_minutes x = 0) := by
  refine ⟨by decide, by decide, by decide, by decide, fun x => rfl, ?_, ?_, ?_⟩
  · intro x h
    simp [hoursComp, h]
  · intro x h
    simp [minutesComp, h]
  · intro x h1 h2
    simp [calculate_minutes, hoursComp, minutesComp, h1, h2]

/-- Witness for C8 at the concrete malformed input `"PTabc"`: both component
parses fail and the parser returns 0. -/
theorem duration_parser_values_witness :
    hoursParse "PTabc" = none ∧ minutesParse "PTabc" = none ∧
      calculate_minutes "PTabc" = 0 :=
  ⟨by decide, by decide,
    duration_parser_values.2.2.2.2.2.2.2 "PTabc" (by decide) (by decide)⟩

/-- C9 counterexample: on input `"PT-5M"` the Duration Parser returns −5,
a negative integer, refuting the claim that the result is always
non-negative. -/
theorem duration_nonneg_counterexample :
    calculate_minutes "PT-5M" = -5 ∧ calculate_minutes "PT-5M" < 0 := by
  exact ⟨by decide, by decide⟩

/-- C9 (amended): the Duration Parser has no error path (it is a total
function of the input string, each component defaulting to 0 on a failed
parse), and its result is non-negative whenever neither component parses to
a negative value. -/
theorem duration_nonneg_amended (x : String)
    (hh : 0 ≤ hoursComp x) (hm : 0 ≤ minutesComp x) :
    0 ≤ calculate_minutes x := by
  have h60 : (0 : Int) ≤ hoursComp x * 60 := by positivity
  have := add_nonneg h60 hm
  simpa [calculate_minutes] using this

/-- Witness for C9 (amended) at `"PT1H30M"`. -/
theorem duration_nonneg_amended_witness :
    0 ≤ calculate_minutes "PT1H30M" :=
  duration_nonneg_amended "PT1H30M" (by decide) (by decide)

/-! ## C4: pagination -/

/-- Collecting ids page after page composes: processing a concatenation is
processing the parts in sequence. -/
theorem dedupAppend_append (acc l1 l2 : List String) :
    dedupAppend acc (l1 ++ l2) = dedupAppend (dedupAppend acc l1) l2 :=
  List.foldl_append _ acc l1 l2

/-- The incremental id collection keeps, after the already-collected `acc`,
exactly the first occurrences of the ids not yet in `acc`. -/
theorem dedupAppend_eq_filter_dedupKeepFirst (l : List String) :
    ∀ acc : List String,
      dedupAppend acc l = acc ++ (dedupKeepFirst l).filter (fun w => decide (w ∉ acc)) := by
  induction l with
  | nil => intro acc; simp [dedupAppend, dedupKeepFirst]
  | cons v vs ih =>
    intro acc
    have hstep : dedupAppend acc (v :: vs) =
        dedupAppend (if v ∈ acc then acc else acc ++ [v]) vs := rfl
    by_cases hv : v ∈ acc
    · rw [hstep, if_pos hv, ih acc]
      have hfalse : (decide (v ∉ acc)) = false := by simp [hv]
      simp only [dedupKeepFirst, List.filter_cons, hfalse]
      rw [List.filter_filter]
      congr 1
      apply List.filter_congr
      intro w _
      by_cases hw : w ∈ acc
      · simp [hw]
      · have hwv : w ≠ v := by
          intro heq
          exact hw (heq ▸ hv)
        simp [hw, hwv]
    · rw [hstep, if_neg hv, ih (acc ++ [v])]
      have htrue : (decide (v ∉ acc)) = true := by simp [hv]
      have heq : (dedupKeepFirst vs).filter (fun w => decide (w ∉ acc ++ [v])) =
          ((dedupKeepFirst vs).filter (fun w => decide (w ≠ v))).filter
            (fun w => decide (w ∉ acc)) := by
        rw [List.filter_filter]
        apply List.filter_congr
        intro w _
        by_cases hw : w ∈ acc <;> by_cases hwv : w = v <;>
          simp [hw, hwv, List.mem_append]
      rw [heq]
      simp [dedupKeepFirst, List.filter_cons, htrue, hv, List.append_assoc]

/-- Starting from an empty collection, the incremental de-duplication is
exactly "duplicates removed, first occurrences kept". -/
theorem dedupAppend_nil (l : List String) :
    dedupAppend [] l = dedupKeepFirst l := by
  rw [dedupAppend_eq_filter_dedupKeepFirst l []]
  simp

/-- The `while next_page` loop over a token chain: every page is consumed by
exactly one request, and the ids accumulate page by page. -/
theorem get_video_list_go_chain (lastPage : Page) (hlast : lastPage.hasNext = false) :
    ∀ (front : List Page) (acc : List String), (∀ p ∈ front, p.hasNext = true) →
      get_video_list_go (front ++ [lastPage]) acc =
        (dedupAppend acc (((front ++ [lastPage]).map Page.items).flatten),
          front.length + 1) := by
  intro front
  induction front with
  | nil =>
    intro acc _
    simp [get_video_list_go, hlast]
  | cons p front ih =>
    intro acc hfront
    have hp : p.hasNext = true := hfront p (by simp)
    have hrest : ∀ q ∈ front, q.hasNext = true := fun q hq => hfront q (by simp [hq])
    have hgo : get_video_list_go ((p :: front) ++ [lastPage]) acc =
        ((get_video_list_go (front ++ [lastPage]) (dedupAppend acc p.items)).1,
          (get_video_list_go (front ++ [lastPage]) (dedupAppend acc p.items)).2 + 1) := by
      simp [get_video_list_go, hp]
    rw [hgo, ih (dedupAppend acc p.items) hrest]
    simp [dedupAppend_append]

/-- C4: for every finite sequence of response pages in which each page except
the last carries a continuation token, `get_video_list` issues exactly one
request per page, terminates when the token is absent, and returns the
concatenation of all pages' ids with duplicates removed, keeping first
occurrences in platform order. -/
theorem pagination_spec (front : List Page) (lastPage : Page)
    (hfront : ∀ p ∈ front, p.hasNext = true) (hlast : lastPage.hasNext = false) :
    get_video_list (front ++ [lastPage]) =
      (dedupKeepFirst (((front ++ [lastPage]).map Page.items).flatten),
        (front ++ [lastPage]).length) := by
  rw [get_video_list, get_video_list_go_chain lastPage hlast front [] hfront,
    dedupAppend_nil]
  simp

/-- Witness for C4: two pages, the first with a continuation token, sharing
the id `"b"`; two requests are issued and `"b"` is kept once. -/
theorem pagination_spec_witness :
    get_video_list [⟨["a", "b"], true⟩, ⟨["b", "c"], false⟩] = (["a", "b", "c"], 2) := by
  have h := pagination_spec [⟨["a", "b"], true⟩] ⟨["b", "c"], false⟩
    (by decide) (by decide)
  exact h.trans (by decide)

/-! ## C5: batching -/

/-- The slices taken by the detail loop concatenate back to the input:
every id is requested, in order, exactly once. -/
theorem chunkLoop_flatten :
    ∀ (fuel : Nat) (l : List String), l.length ≤ fuel →
      (chunkLoop fuel l).flatten = l := by
  intro fuel
  induction fuel with
  | zero =>
    intro l hl
    have : l = [] := List.eq_nil_of_length_eq_zero (Nat.le_zero.mp hl)
    simp [this, chunkLoop]
  | succ fuel ih =>
    intro l hl
    cases l with
    | nil => simp [chunkLoop]
    | cons c cs =>
      have hdrop : ((c :: cs).drop 50).length ≤ fuel := by
        simp only [List.length_drop, List.length_cons]
        simp only [List.length_cons] at hl
        omega
      simp only [chunkLoop, List.flatten_cons, ih _ hdrop]
      exact List.take_append_drop 50 (c :: cs)

/-- Every slice taken by the detail loop is nonempty and holds at most 50
ids. -/
theorem chunkLoop_bounds :
    ∀ (fuel : Nat) (l : List String), ∀ c ∈ chunkLoop fuel l,
      c ≠ [] ∧ c.length ≤ 50 := by
  intro fuel
  induction fuel with
  | zero => intro l c hc; simp [chunkLoop] at hc
  | succ fuel ih =>
    intro l c hc
    cases l with
    | nil => simp [chunkLoop] at hc
    | cons a as =>
      simp only [chunkLoop, List.mem_cons] at hc
      rcases hc with h | h
      · subst h
        refine ⟨by simp [List.take_cons], ?_⟩
        simp [List.length_take]
      · exact ih _ c h

/-- The slice lengths are a function of the input length alone. -/
theorem chunkLoop_map_length :
    ∀ (fuel : Nat) (l : List String), l.length ≤ fuel →
      (chunkLoop fuel l).map List.length = lenChunksLoop fuel l.length := by
  intro fuel
  induction fuel with
  | zero =>
    intro l hl
    have : l = [] := List.eq_nil_of_length_eq_zero (Nat.le_zero.mp hl)
    simp [this, chunkLoop, lenChunksLoop]
  | succ fuel ih =>
    intro l hl
    cases l with
    | nil => simp [chunkLoop, lenChunksLoop]
    | cons a as =>
      have hdrop : ((a :: as).drop 50).length ≤ fuel := by
        simp only [List.length_drop, List.length_cons]
        simp only [List.length_cons] at hl
        omega
      simp only [chunkLoop, List.map_cons, List.length_take, ih _ hdrop,
        List.length_drop, List.length_cons, lenChunksLoop]

/-- C5: the Batch Detail Fetcher partitions its input into consecutive
nonempty chunks of at most 50 ids, one request per chunk; an input of 120
ids yields exactly the chunk sizes 50, 50, 20. -/
theorem batching_spec :
    (∀ l : List String, (get_video_details_requests l).flatten = l) ∧
    (∀ l : List String, ∀ c ∈ get_video_details_requests l,
      c ≠ [] ∧ c.length ≤ 50) ∧
    (∀ l : List String, l.length = 120 →
      (get_video_details_requests l).map List.length = [50, 50, 20]) := by
  refine ⟨fun l => chunkLoop_flatten l.length l le_rfl,
    fun l c hc => chunkLoop_bounds l.length l c hc, ?_⟩
  intro l hl
  rw [get_video_details_requests, chunkLoop_map_length l.length l le_rfl, hl]
  decide

/-- Witness for C5 at a concrete 120-id input. -/
theorem batching_spec_witness :
    (List.replicate 120 "x").length = 120 ∧
    (get_video_details_requests (List.replicate 120 "x")).map List.length =
      [50, 50, 20] :=
  ⟨by simp, batching_spec.2.2 (List.replicate 120 "x") (by simp)⟩

/-! ## C6: tag sanitizer limits -/

/-- The while loop brings the serialized length within 500 characters,
provided the removal oracle stays in range (as `random.randint(0, n-1)`
does) and the fuel covers the list length. -/
theorem shrinkLoop_join_le (pick : List (List Char) → Nat)
    (hpick : ∀ l : List (List Char), l ≠ [] → pick l < l.length) :
    ∀ (fuel : Nat) (tags : List (List Char)), tags.length ≤ fuel →
      (joinCommaSpace (shrinkLoop pick fuel tags)).length ≤ 500 := by
  intro fuel
  induction fuel with
  | zero =>
    intro tags h
    have : tags = [] := List.eq_nil_of_length_eq_zero (Nat.le_zero.mp h)
    simp [this, shrinkLoop, joinCommaSpace]
  | succ fuel ih =>
    intro tags h
    by_cases hlong : 500 < (joinCommaSpace tags).length
    · have hne : tags ≠ [] := by
        intro hnil
        rw [hnil] at hlong
        simp [joinCommaSpace] at hlong
      have hidx : pick tags < tags.length := hpick tags hne
      have herase : (tags.eraseIdx (pick tags)).length ≤ fuel := by
        have := List.length_eraseIdx_add_one hidx
        omega
      rw [shrinkLoop, if_pos hlong]
      exact ih _ herase
    · rw [shrinkLoop, if_neg hlong]
      exact Nat.not_lt.mp hlong

/-- The while loop only removes tags, never edits or adds them. -/
theorem shrinkLoop_sublist (pick : List (List Char) → Nat) :
    ∀ (fuel : Nat) (tags : List (List Char)),
      List.Sublist (shrinkLoop pick fuel tags) tags := by
  intro fuel
  induction fuel with
  | zero => intro tags; exact List.Sublist.refl _
  | succ fuel ih =>
    intro tags
    by_cases hlong : 500 < (joinCommaSpace tags).length
    · rw [shrinkLoop, if_pos hlong]
      exact (ih _).trans (List.eraseIdx_sublist tags (pick tags))
    · rw [shrinkLoop, if_neg hlong]

/-- Every tag surviving the comprehension has at most 30 characters: the
filter keeps stripped tags of at most 30 characters and removing periods
only shortens them. -/
theorem tagCandidates_length_le (s : List Char) :
    ∀ t ∈ tagCandidates s, t.length ≤ 30 := by
  intro t ht
  rw [tagCandidates] at ht
  rcases List.mem_map.mp ht with ⟨t0, ht0, rfl⟩
  have h30 : (pyStrip t0).length ≤ 30 := by
    have := (List.mem_filter.mp ht0).2
    simpa using this
  exact le_trans (List.length_filter_le _ (pyStrip t0)) h30

/-- C6: for every input string and every in-range removal oracle, the Tag
Sanitizer terminates with a serialization of at most 500 characters, every
kept tag having at most 30 characters. -/
theorem tag_sanitizer_limits (pick : List (List Char) → Nat)
    (hpick : ∀ l : List (List Char), l ≠ [] → pick l < l.length) (s : String) :
    (clean_and_fix_tags pick s).length ≤ 500 ∧
    ∀ t ∈ cleanTagsList pick s, t.length ≤ 30 := by
  constructor
  · have h := shrinkLoop_join_le pick hpick (tagCandidates s.data).length
      (tagCandidates s.data) le_rfl
    simpa [clean_and_fix_tags, cleanTagsList, String.length] using h
  · intro t ht
    have hsub := shrinkLoop_sublist pick (tagCandidates s.data).length
      (tagCandidates s.data)
    exact tagCandidates_length_le s.data t
      (hsub.subset (by simpa [cleanTagsList] using ht))

/-- Witness for C6 at the concrete input `"a, b"` with the leftmost-removal
oracle. -/
theorem tag_sanitizer_limits_witness :
    (clean_and_fix_tags (fun _ => 0) "a, b").length ≤ 500 ∧
    ∀ t ∈ cleanTagsList (fun _ => 0) "a, b", t.length ≤ 30 :=
  tag_sanitizer_limits (fun _ => 0) (fun _ h => List.length_pos.mpr h) "a, b"

/-! ## C7: tag sanitizer on already-compliant input -/

/-- Splitting never yields the empty list of parts. -/
theorem splitChar_ne_nil (sep : Char) : ∀ l : List Char, splitChar sep l ≠ [] := by
  intro l
  induction l with
  | nil => simp [splitChar]
  | cons c cs ih =>
    rw [splitChar]
    by_cases h : c = sep
    · simp [h]
    · rw [if_neg h]
      cases hs : splitChar sep cs with
      | nil => simp
      | cons t ts => simp

/-- Prepending separator-free text extends the first part of a split. -/
theorem splitChar_append (sep : Char) :
    ∀ (t l : List Char), (∀ c ∈ t, c ≠ sep) →
      splitChar sep (t ++ l) =
        (t ++ (splitChar sep l).headD []) :: (splitChar sep l).tail := by
  intro t
  induction t with
  | nil =>
    intro l _
    cases hs : splitChar sep l with
    | nil => exact absurd hs (splitChar_ne_nil sep l)
    | cons a as => simp [hs]
  | cons c t ih =>
    intro l h
    have hc : c ≠ sep := h c (by simp)
    have ht : ∀ d ∈ t, d ≠ sep := fun d hd => h d (by simp [hd])
    rw [List.cons_append, splitChar, if_neg hc, ih l ht]
    simp

/-- Splitting the comma-space join of comma-free tags recovers the first tag
and each later tag with the joining space still prefixed. -/
theorem splitChar_comma_join :
    ∀ (ts : List (List Char)) (t : List Char), (∀ c ∈ t, c ≠ ',') →
      (∀ u ∈ ts, ∀ c ∈ u, c ≠ ',') →
      splitChar ',' (joinCommaSpace (t :: ts)) = t :: ts.map (fun u => ' ' :: u) := by
  intro ts
  induction ts with
  | nil =>
    intro t ht _
    have h := splitChar_append ',' t [] ht
    simpa [joinCommaSpace, splitChar] using h
  | cons u ts ih =>
    intro t ht hts
    have hu : ∀ c ∈ u, c ≠ ',' := hts u (by simp)
    have hts2 : ∀ w ∈ ts, ∀ c ∈ w, c ≠ ',' := fun w hw => hts w (by simp [hw])
    have hrest := ih u hu hts2
    rw [joinCommaSpace, splitChar_append ',' t (',' :: ' ' :: joinCommaSpace (u :: ts)) ht]
    rw [splitChar, if_pos rfl]
    rw [show splitChar ',' (' ' :: joinCommaSpace (u :: ts)) =
        match splitChar ',' (joinCommaSpace (u :: ts)) with
        | [] => [[' ']]
        | t :: ts => ((' ' :: t)) :: ts from by rw [splitChar]; simp]
    rw [hrest]
    simp

/-- Stripping ignores a leading space. -/
theorem pyStrip_cons_space (l : List Char) : pyStrip (' ' :: l) = pyStrip l := by
  have h : (' ' : Char).isWhitespace = true := by decide
  simp [pyStrip, List.dropWhile_cons, h]

/-- Removing periods from a period-free tag is the identity. -/
theorem removeDots_of_no_dot (t : List Char) (h : '.' ∉ t) : removeDots t = t := by
  apply List.filter_eq_self.mpr
  intro c hc
  simp only [decide_eq_true_eq]
  intro heq
  exact h (heq ▸ hc)

/-- On the join of canonical tags (comma-free, period-free, stripped, each at
most 30 characters) the comprehension gives back exactly the tag list. -/
theorem tagCandidates_join (t : List Char) (ts : List (List Char))
    (hcomma : ∀ u ∈ t :: ts, ∀ c ∈ u, c ≠ ',')
    (hdot : ∀ u ∈ t :: ts, '.' ∉ u)
    (hstripped : ∀ u ∈ t :: ts, pyStrip u = u)
    (hlen : ∀ u ∈ t :: ts, u.length ≤ 30) :
    tagCandidates (joinCommaSpace (t :: ts)) = t :: ts := by
  have hsplit := splitChar_comma_join ts t (hcomma t (by simp))
    (fun u hu => hcomma u (by simp [hu]))
  rw [tagCandidates, hsplit]
  have hkeep : ∀ x ∈ t :: ts.map (fun u => ' ' :: u),
      (decide ((pyStrip x).length ≤ 30)) = true := by
    intro x hx
    rcases List.mem_cons.mp hx with h | h
    · rw [h, hstripped t (by simp)]
      simpa using hlen t (by simp)
    · rcases List.mem_map.mp h with ⟨u, hu, rfl⟩
      rw [pyStrip_cons_space, hstripped u (by simp [hu])]
      simpa using hlen u (by simp [hu])
  rw [List.filter_eq_self.mpr hkeep]
  rw [List.map_cons, List.map_map]
  have hhead : removeDots (pyStrip t) = t := by
    rw [hstripped t (by simp)]
    exact removeDots_of_no_dot t (hdot t (by simp))
  have htail : ∀ u ∈ ts,
      ((fun v => removeDots (pyStrip v)) ∘ (fun u => ' ' :: u)) u = id u := by
    intro u hu
    simp only [Function.comp_apply, id_eq]
    rw [pyStrip_cons_space, hstripped u (by simp [hu])]
    exact removeDots_of_no_dot u (hdot u (by simp [hu]))
  rw [hhead, List.map_congr_left htail, List.map_id]

/-- When the serialization is already within 500 characters the while loop
does nothing. -/
theorem shrinkLoop_of_le (pick : List (List Char) → Nat) (fuel : Nat)
    (tags : List (List Char)) (h : (joinCommaSpace tags).length ≤ 500) :
    shrinkLoop pick fuel tags = tags := by
  cases fuel with
  | zero => rfl
  | succ fuel => rw [shrinkLoop, if_neg (Nat.not_lt.mpr h)]

/-- C7 counterexample: `"a.b"` is compliant in the claim's sense (its single
tag has 3 ≤ 30 characters and the serialization has 3 ≤ 500 characters) yet
the sanitizer rewrites it to `"ab"`, refuting the claimed no-op. -/
theorem tag_sanitizer_noop_counterexample :
    ((splitChar ',' "a.b".data).all (fun t => decide (t.length ≤ 30))) = true ∧
    "a.b".length ≤ 500 ∧
    clean_and_fix_tags (fun _ => 0) "a.b" ≠ "a.b" :=
  ⟨by decide, by decide, by decide⟩

/-- C7 (amended): the Tag Sanitizer is a no-op on every input in canonical
form: a comma-space join of tags that are comma-free, period-free, stripped
of surrounding whitespace and at most 30 characters each, whose join has at
most 500 characters. -/
theorem tag_sanitizer_noop_canonical (pick : List (List Char) → Nat)
    (ts : List (List Char))
    (hcomma : ∀ u ∈ ts, ∀ c ∈ u, c ≠ ',')
    (hdot : ∀ u ∈ ts, '.' ∉ u)
    (hstripped : ∀ u ∈ ts, pyStrip u = u)
    (hlen : ∀ u ∈ ts, u.length ≤ 30)
    (hjoin : (joinCommaSpace ts).length ≤ 500) :
    clean_and_fix_tags pick (String.mk (joinCommaSpace ts)) =
      String.mk (joinCommaSpace ts) := by
  cases ts with
  | nil => rfl
  | cons t ts =>
    have hcand := tagCandidates_join t ts hcomma hdot hstripped hlen
    rw [clean_and_fix_tags, cleanTagsList]
    rw [show (String.mk (joinCommaSpace (t :: ts))).data = joinCommaSpace (t :: ts)
      from rfl]
    rw [hcand, shrinkLoop_of_le pick _ _ hjoin]

/-- Witness for C7 (amended) at the canonical input built from the tags
`"a"` and `"b"` (the string `"a, b"`). -/
theorem tag_sanitizer_noop_canonical_witness :
    clean_and_fix_tags (fun _ => 0) (String.mk (joinCommaSpace [['a'], ['b']])) =
      String.mk (joinCommaSpace [['a'], ['b']]) :=
  tag_sanitizer_noop_canonical (fun _ => 0) [['a'], ['b']]
    (by decide) (by decide) (by decide) (by decide) (by decide)

/-! ## C1, C2, C3, C10: the update orchestrator -/

/-- The update loop processes a concatenation of batches independently: its
failure table, request list and updated list are the concatenations of the
batches' own. -/
theorem update_append (execOk : Row → Bool) (l1 l2 : List Row) :
    update_youtube_videos execOk (l1 ++ l2) =
      ⟨(update_youtube_videos execOk l1).failed ++ (update_youtube_videos execOk l2).failed,
        (update_youtube_videos execOk l1).requests ++ (update_youtube_videos execOk l2).requests,
        (update_youtube_videos execOk l1).updated ++ (update_youtube_videos execOk l2).updated⟩ := by
  induction l1 with
  | nil => simp [update_youtube_videos]
  | cons row rest ih =>
    simp only [List.cons_append, update_youtube_videos, ih]
    cases h1 : alreadyUpdated row <;> cases h2 : sizeViolation row <;>
      cases h3 : execOk row <;> simp [h1, h2, h3, ih]

/-- C1 (amended): a marker-free row with an oversized generated description
or oversized serialized tags is placed, at its position, in the returned
failure table, and contributes no update request; a row already bearing the
processed marker is skipped instead, even when oversized (see the
counterexample). -/
theorem sizeLimit_routing (execOk : Row → Bool) (df1 df2 : List Row) (row : Row)
    (hm : alreadyUpdated row = false) (hs : sizeViolation row = true) :
    update_youtube_videos execOk (df1 ++ row :: df2) =
      ⟨(update_youtube_videos execOk df1).failed ++
          row :: (update_youtube_videos execOk df2).failed,
        (update_youtube_videos execOk df1).requests ++
          (update_youtube_videos execOk df2).requests,
        (update_youtube_videos execOk df1).updated ++
          (update_youtube_videos execOk df2).updated⟩ := by
  rw [update_append execOk df1 (row :: df2)]
  simp [update_youtube_videos, hm, hs]

set_option maxRecDepth 4000 in
/-- C1 counterexample: a row that bears the processed marker and violates
the size limit is skipped by the marker guard, so it is not placed in the
failure table, refuting the claim as stated for marker-bearing rows. -/
theorem sizeLimit_marker_counterexample :
    sizeViolation markedOversizedRow = true ∧
    update_youtube_videos (fun _ => true) [markedOversizedRow] = ⟨[], [], []⟩ := by
  constructor
  · decide
  · have hm : alreadyUpdated markedOversizedRow = true := by decide
    simp [update_youtube_videos, hm]

set_option maxRecDepth 4000 in
/-- Witness for C1 (amended) at a concrete marker-free row with a
501-character serialized tag string. -/
theorem sizeLimit_routing_witness :
    alreadyUpdated oversizedRow = false ∧ sizeViolation oversizedRow = true ∧
    update_youtube_videos (fun _ => true) [oversizedRow] = ⟨[oversizedRow], [], []⟩ := by
  refine ⟨by decide, by decide, ?_⟩
  have h := sizeLimit_routing (fun _ => true) [] [] oversizedRow (by decide) (by decide)
  simpa [update_youtube_videos] using h

/-- C2: in a batch of five rows that all reach the update call, where only
the third row's call raises, the failure table contains exactly the third
row, all five calls are attempted, and the other four rows are reported
updated — one row's exception never aborts the batch. -/
theorem update_isolation (execOk : Row → Bool) (r1 r2 r3 r4 r5 : Row)
    (hm1 : alreadyUpdated r1 = false) (hm2 : alreadyUpdated r2 = false)
    (hm3 : alreadyUpdated r3 = false) (hm4 : alreadyUpdated r4 = false)
    (hm5 : alreadyUpdated r5 = false)
    (hs1 : sizeViolation r1 = false) (hs2 : sizeViolation r2 = false)
    (hs3 : sizeViolation r3 = false) (hs4 : sizeViolation r4 = false)
    (hs5 : sizeViolation r5 = false)
    (he1 : execOk r1 = true) (he2 : execOk r2 = true) (he3 : execOk r3 = false)
    (he4 : execOk r4 = true) (he5 : execOk r5 = true) :
    update_youtube_videos execOk [r1, r2, r3, r4, r5] =
      ⟨[r3],
        [mkRequest r1, mkRequest r2, mkRequest r3, mkRequest r4, mkRequest r5],
        [r1, r2, r4, r5]⟩ := by
  simp [update_youtube_videos, hm1, hm2, hm3, hm4, hm5, hs1, hs2, hs3, hs4, hs5,
    he1, he2, he3, he4, he5]

/-- Witness for C2 on five concrete rows where the oracle fails exactly the
row titled `"t3"`. -/
theorem update_isolation_witness :
    update_youtube_videos (fun r => r.title != "t3")
        [isoRow "t1", isoRow "t2", isoRow "t3", isoRow "t4", isoRow "t5"] =
      ⟨[isoRow "t3"],
        [mkRequest (isoRow "t1"), mkRequest (isoRow "t2"), mkRequest (isoRow "t3"),
          mkRequest (isoRow "t4"), mkRequest (isoRow "t5")],
        [isoRow "t1", isoRow "t2", isoRow "t4", isoRow "t5"]⟩ :=
  update_isolation (fun r => r.title != "t3") (isoRow "t1") (isoRow "t2")
    (isoRow "t3") (isoRow "t4") (isoRow "t5")
    (by decide) (by decide) (by decide) (by decide) (by decide)
    (by decide) (by decide) (by decide) (by decide) (by decide)
    (by decide) (by decide) (by decide) (by decide) (by decide)

/-- C3: a record whose raw description contains the processed marker is
excluded entirely: the main-phase filter drops it before generation, and the
update loop's outcome on any table containing it equals the outcome on the
table without it — it is neither failed, nor requested, nor reported
updated. -/
theorem marker_excluded :
    (∀ (df : List Row) (row : Row), alreadyUpdated row = true →
      row ∉ filterAlreadyUpdated df) ∧
    (∀ (execOk : Row → Bool) (df1 df2 : List Row) (row : Row),
      alreadyUpdated row = true →
      update_youtube_videos execOk (df1 ++ row :: df2) =
        update_youtube_videos execOk (df1 ++ df2)) := by
  constructor
  · intro df row hrow hmem
    rw [filterAlreadyUpdated] at hmem
    have h := (List.mem_filter.mp hmem).2
    simp [hrow] at h
  · intro execOk df1 df2 row hrow
    rw [update_append execOk df1 (row :: df2), update_append execOk df1 df2]
    simp [update_youtube_videos, hrow]

/-- Witness for C3 at a concrete marker-bearing row. -/
theorem marker_excluded_witness :
    markedRow ∉ filterAlreadyUpdated [markedRow] ∧
    update_youtube_videos (fun _ => true) ([] ++ markedRow :: []) =
      update_youtube_videos (fun _ => true) ([] ++ []) :=
  ⟨marker_excluded.1 [markedRow] markedRow (by decide),
    marker_excluded.2 (fun _ => true) [] [] markedRow (by decide)⟩

/-- C10: every update request the loop issues carries the fixed category
code `"27"`, regardless of the row's own category. -/
theorem category_always_27 (execOk : Row → Bool) (df : List Row)
    (req : UpdateRequest)
    (hreq : req ∈ (update_youtube_videos execOk df).requests) :
    req.categoryId = "27" := by
  induction df with
  | nil => simp [update_youtube_videos] at hreq
  | cons row rest ih =>
    simp only [update_youtube_videos] at hreq
    by_cases h1 : alreadyUpdated row = true
    · rw [if_pos h1] at hreq
      exact ih hreq
    · rw [if_neg h1] at hreq
      by_cases h2 : sizeViolation row = true
      · rw [if_pos h2] at hreq
        exact ih (by simpa using hreq)
      · rw [if_neg h2] at hreq
        by_cases h3 : execOk row = true
        · rw [if_pos h3] at hreq
          have h4 : req = mkRequest row ∨
              req ∈ (update_youtube_videos execOk rest).requests := by
            simpa using hreq
          rcases h4 with h | h
          · rw [h]; rfl
          · exact ih h
        · rw [if_neg h3] at hreq
          have h4 : req = mkRequest row ∨
              req ∈ (update_youtube_videos execOk rest).requests := by
            simpa using hreq
          rcases h4 with h | h
          · rw [h]; rfl
          · exact ih h

/-- Witness for C10: the single request issued for a concrete compliant row
carries category `"27"`. -/
theorem category_always_27_witness :
    mkRequest plainRow ∈ (update_youtube_videos (fun _ => true) [plainRow]).requests ∧
    (mkRequest plainRow).categoryId = "27" :=
  ⟨by decide,
    category_always_27 (fun _ => true) [plainRow] (mkRequest plainRow) (by decide)⟩

end Enhancer
